import Mathlib

/-!
Verification of the Bézier curve editor core (src/unnamed/part_000).

The embedding models the de Casteljau evaluator `bezier`, the tessellation
loop `update_bezier`, and the event-driven state (control points, quality,
spline buffer, GPU-side copies) of `main`.

Numeric model: the source computes with IEEE `float`; we idealise `float`
arithmetic as exact rationals (ℚ) for positions and parameters, and use real
numbers (ℝ) for arc lengths because `std::hypot` introduces a square root.
`std::hypot(a, b)` is modelled as `Real.sqrt (a^2 + b^2)`.  One discrepancy is
noted where it occurs: in ℚ, division by zero yields 0 where the source's
float division would yield NaN; the only place this can happen is the
parameter `i / (N - 1)` with `N = 1`, where the control-point list has exactly
one element and the evaluator ignores the parameter entirely, so every output
value is the same in both models.
-/

namespace BezierApp

/-- Two-dimensional point (the source's `vec2` with two `float` members). -/
@[ext]
structure vec2 where
  x : ℚ
  y : ℚ
deriving DecidableEq

/-- Control-point vertex (the source's `vertex`): a position plus an RGBA
color of four 8-bit channels, modelled as a 4-tuple of naturals. -/
structure vertex where
  position : vec2
  color : ℕ × ℕ × ℕ × ℕ
deriving DecidableEq

/-- One linear-interpolation assignment of the source's inner loop body:
`points[i].x = points[i].x * (1.f - t) + points[i + 1].x * t` and the same
for `y`. -/
def lerpP (t : ℚ) (p q : vec2) : vec2 :=
  ⟨p.x * (1 - t) + q.x * t, p.y * (1 - t) + q.y * t⟩

/-- One step of the source's inner `i` loop: update `points[i]` from
`points[i]` and `points[i+1]` (both reads are in bounds whenever the source
runs this statement; `getD` supplies a default that is never used there). -/
def innerStep (t : ℚ) (ps : List vec2) (i : ℕ) : List vec2 :=
  ps.set i (lerpP t (ps.getD i ⟨0, 0⟩) (ps.getD (i + 1) ⟨0, 0⟩))

/-- The source's `bezier` function: copy the positions of the control
vertices, run de Casteljau's algorithm in place (outer loop `k + 1 < n`,
inner loop `i + k + 1 < n`), and return `points[0]`.  Reading `points[0]` of
an empty vector is undefined behaviour in the source; the embedding returns
`none` in that case (see the claim that this is unreachable). -/
def bezier (vertices : List vertex) (t : ℚ) : Option vec2 :=
  ((List.range (vertices.length - 1)).foldl
    (fun points k => (List.range (vertices.length - k - 1)).foldl (innerStep t) points)
    (vertices.map (fun v => v.position))).head?

/-- One de Casteljau round as the spec words it: every point becomes the
interpolation of itself and its successor, so a list of `m` points becomes a
list of `m - 1` points. -/
def deCasteljauRound (t : ℚ) : List vec2 → List vec2
  | p :: q :: rest => lerpP t p q :: deCasteljauRound t (q :: rest)
  | _ => []

/-- Functional statement of the spec's description of the evaluator: perform
`count - 1` de Casteljau rounds and return the single remaining point
(`none` for an empty input, which the spec forbids calling). -/
def bezierRoundsSpec (positions : List vec2) (t : ℚ) : Option vec2 :=
  ((deCasteljauRound t)^[positions.length - 1] positions).head?

/-- Euclidean norm of a displacement, the source's `std::hypot`. -/
noncomputable def hypot (x y : ℚ) : ℝ :=
  Real.sqrt ((x : ℝ) ^ 2 + (y : ℝ) ^ 2)

/-- Tessellated vertex (the source's `bezier_vertex`): position, the fixed
curve color, and cumulative arc length `dist`. -/
structure bezier_vertex where
  position : vec2
  color : ℕ × ℕ × ℕ × ℕ
  dist : ℝ

/-- The source's per-sample `dist` computation: 0 when `bezier_spline` is
still empty (`prev = none`), otherwise the previous vertex's `dist` plus the
`std::hypot` of the displacement from the previous position to the new
position `p`. -/
noncomputable def nextDist (prev : Option bezier_vertex) (p : vec2) : ℝ :=
  match prev with
  | none => 0
  | some v => hypot (v.position.x - p.x) (v.position.y - p.y) + v.dist

/-- Body of the source's tessellation loop, as state passing: `prev` is the
vertex pushed on the previous iteration (`bezier_spline.back()`), `none` on
the first iteration (`bezier_spline.empty()`).  Each iteration evaluates the
curve at `i / (N - 1)`, computes `dist` via `nextDist`, and pushes the vertex
with the fixed color `{180, 255, 180, 255}`. -/
noncomputable def splineLoop (pts : List vertex) (N : ℕ) :
    List ℕ → Option bezier_vertex → List bezier_vertex
  | [], _ => []
  | i :: rest, prev =>
    let p := (bezier pts ((i : ℚ) / ((N - 1 : ℕ) : ℚ))).getD ⟨0, 0⟩
    let w : bezier_vertex := ⟨p, (180, 255, 180, 255), nextDist prev p⟩
    w :: splineLoop pts N rest (some w)

/-- The source's `update_bezier` lambda restricted to its computation: clear
the spline and push `N = bezier_pts.size() * quality` samples. -/
noncomputable def update_bezier (pts : List vertex) (quality : ℕ) : List bezier_vertex :=
  splineLoop pts (pts.length * quality) (List.range (pts.length * quality)) none

/-- Program state captured by the lambdas in `main`: the control-point list,
the quality multiplier, the tessellated spline, and the two GPU-resident
buffer copies written by `update_pts_vbo` / `update_spline_vbo`. -/
structure AppState where
  bezier_pts : List vertex
  quality : ℕ
  bezier_spline : List bezier_vertex
  vbo_pts : List vertex
  vbo_spline : List bezier_vertex

/-- The source's `update_bezier` lambda as a state transformer: recompute the
spline from the current control points and quality, then re-upload both
buffers. -/
noncomputable def updateBezierState (s : AppState) : AppState :=
  let spline := update_bezier s.bezier_pts s.quality
  { s with bezier_spline := spline, vbo_pts := s.bezier_pts, vbo_spline := spline }

/-- Input events handled by the source's event loop. -/
inductive Event where
  | mouseLeft (x y : ℚ)
  | mouseRight
  | keyLeft
  | keyRight

/-- The source's `SDL_MOUSEBUTTONDOWN` / `SDL_KEYDOWN` handling: left click
appends a white control point and rebuilds; right click pops the last point
(if any) and rebuilds; the left key decrements quality only when it is
greater than 1 and rebuilds only in that case; the right key increments
quality unconditionally and rebuilds. -/
noncomputable def handleEvent (s : AppState) : Event → AppState
  | .mouseLeft x y =>
      updateBezierState
        { s with bezier_pts := s.bezier_pts ++ [⟨⟨x, y⟩, (255, 255, 255, 255)⟩] }
  | .mouseRight =>
      if s.bezier_pts = [] then s
      else updateBezierState { s with bezier_pts := s.bezier_pts.dropLast }
  | .keyLeft =>
      if 1 < s.quality then updateBezierState { s with quality := s.quality - 1 } else s
  | .keyRight =>
      updateBezierState { s with quality := s.quality + 1 }

/-- The state set up by `main` before the event loop: no control points,
quality 4, empty spline, both buffers uploaded empty. -/
def initState : AppState :=
  { bezier_pts := [], quality := 4, bezier_spline := [], vbo_pts := [], vbo_spline := [] }

/-- Run a sequence of input events from a state. -/
noncomputable def runEvents (s : AppState) (es : List Event) : AppState :=
  es.foldl handleEvent s

/-! Lemmas about the de Casteljau rounds. -/

theorem deCasteljauRound_length (t : ℚ) :
    ∀ l : List vec2, (deCasteljauRound t l).length = l.length - 1
  | [] => by simp [deCasteljauRound]
  | [p] => by simp [deCasteljauRound]
  | p :: q :: rest => by
      have ih := deCasteljauRound_length t (q :: rest)
      simp only [deCasteljauRound, List.length_cons] at ih ⊢
      omega

theorem deCasteljauRound_take (t : ℚ) :
    ∀ (ps : List vec2) (cnt : ℕ), cnt + 1 < ps.length →
      deCasteljauRound t (ps.take (cnt + 2)) =
        deCasteljauRound t (ps.take (cnt + 1)) ++
          [lerpP t (ps.getD cnt ⟨0, 0⟩) (ps.getD (cnt + 1) ⟨0, 0⟩)]
  | [], cnt, h => by simp at h
  | [p], cnt, h => by simp at h
  | p :: q :: rest, 0, h => by
      simp [deCasteljauRound]
  | p :: q :: rest, (m + 1), h => by
      have h' : m + 1 < (q :: rest).length := by
        simpa using Nat.lt_of_succ_lt_succ h
      have ih := deCasteljauRound_take t (q :: rest) m h'
      simp only [List.take_succ_cons, List.getD_cons_succ]
      simp only [List.take_succ_cons] at ih
      simp [deCasteljauRound, ih]

theorem iterate_deCasteljauRound_length (t : ℚ) (k : ℕ) :
    ∀ l : List vec2, ((deCasteljauRound t)^[k] l).length = l.length - k := by
  induction k with
  | zero => intro l; simp
  | succ i ihm =>
    intro l
    rw [Function.iterate_succ_apply', deCasteljauRound_length, ihm]
    omega

theorem innerFold_eq (t : ℚ) :
    ∀ (cnt : ℕ) (ps : List vec2), cnt + 1 ≤ ps.length →
      (List.range cnt).foldl (innerStep t) ps =
        deCasteljauRound t (ps.take (cnt + 1)) ++ ps.drop cnt := by
  intro cnt
  induction cnt with
  | zero =>
    intro ps h
    match ps, h with
    | p :: rest, _ => simp [deCasteljauRound]
  | succ m ih =>
    intro ps h
    have hm : m + 1 ≤ ps.length := by omega
    have hlt : m < ps.length := by omega
    have hlt' : m + 1 < ps.length := by omega
    rw [List.range_succ, List.foldl_concat, ih ps hm]
    have lenA : (deCasteljauRound t (ps.take (m + 1))).length = m := by
      rw [deCasteljauRound_length, List.length_take]
      omega
    have hdrop : ps.drop m = ps[m] :: ps.drop (m + 1) :=
      List.drop_eq_getElem_cons hlt
    rw [innerStep, List.getD_append_right _ _ _ _ (by omega),
      List.getD_append_right _ _ _ _ (by omega),
      List.set_append_right _ _ (by omega), lenA]
    simp only [Nat.sub_self, show m + 1 - m = 1 from by omega, hdrop]
    rw [deCasteljauRound_take t ps m hlt',
      List.getD_eq_getElem ps _ hlt, List.getD_eq_getElem ps _ hlt']
    have hdrop2 : ps.drop (m + 1) = ps[m + 1] :: ps.drop (m + 2) :=
      List.drop_eq_getElem_cons hlt'
    rw [List.getD_cons_zero, List.getD_cons_succ, hdrop2, List.getD_cons_zero]
    simp
    rw [hdrop, hdrop2]
    rfl

theorem outerFold_eq (t : ℚ) (n : ℕ) (pos0 : List vec2) (hn : pos0.length = n) :
    ∀ k, k ≤ n - 1 →
      ∃ junk,
        (List.range k).foldl
            (fun points j => (List.range (n - j - 1)).foldl (innerStep t) points) pos0 =
          (deCasteljauRound t)^[k] pos0 ++ junk := by
  intro k
  induction k with
  | zero => intro _; exact ⟨[], by simp⟩
  | succ m ih =>
    intro h
    obtain ⟨junk, hj⟩ := ih (by omega)
    have lenIter : ((deCasteljauRound t)^[m] pos0).length = n - m := by
      rw [iterate_deCasteljauRound_length, hn]
    have hcnt : (n - m - 1) + 1 = n - m := by omega
    rw [List.range_succ, List.foldl_concat, hj,
      innerFold_eq t (n - m - 1) _ (by rw [List.length_append, lenIter]; omega),
      hcnt, List.take_left' lenIter]
    exact ⟨_, by rw [Function.iterate_succ_apply']⟩

/-- The source's in-place evaluator agrees with the spec's description of the
algorithm as `count - 1` successive de Casteljau rounds. -/
theorem bezier_eq_roundsSpec (vertices : List vertex) (t : ℚ) :
    bezier vertices t = bezierRoundsSpec (vertices.map fun v => v.position) t := by
  cases vertices with
  | nil => simp [bezier, bezierRoundsSpec]
  | cons v vs =>
    obtain ⟨junk, hj⟩ :=
      outerFold_eq t (v :: vs).length ((v :: vs).map fun w => w.position)
        (by simp) ((v :: vs).length - 1) le_rfl
    have lenIter :
        ((deCasteljauRound t)^[(v :: vs).length - 1]
            ((v :: vs).map fun w => w.position)).length = 1 := by
      rw [iterate_deCasteljauRound_length]
      simp
    rw [bezier, bezierRoundsSpec, hj, List.head?_append_of_ne_nil]
    · simp
    · intro hnil
      rw [hnil] at lenIter
      simp at lenIter

theorem lerpP_zero (p q : vec2) : lerpP 0 p q = p := by
  ext <;> simp [lerpP]

theorem lerpP_one (p q : vec2) : lerpP 1 p q = q := by
  ext <;> simp [lerpP]

theorem deCasteljauRound_zero :
    ∀ l : List vec2, deCasteljauRound 0 l = l.dropLast
  | [] => by simp [deCasteljauRound]
  | [p] => by simp [deCasteljauRound]
  | p :: q :: rest => by
      rw [show deCasteljauRound 0 (p :: q :: rest) =
          lerpP 0 p q :: deCasteljauRound 0 (q :: rest) from rfl,
        deCasteljauRound_zero (q :: rest), lerpP_zero]
      rfl

theorem deCasteljauRound_one :
    ∀ l : List vec2, deCasteljauRound 1 l = l.tail
  | [] => by simp [deCasteljauRound]
  | [p] => by simp [deCasteljauRound]
  | p :: q :: rest => by
      rw [show deCasteljauRound 1 (p :: q :: rest) =
          lerpP 1 p q :: deCasteljauRound 1 (q :: rest) from rfl,
        deCasteljauRound_one (q :: rest), lerpP_one]
      rfl

theorem head?_iterate_dropLast {α : Type} :
    ∀ (k : ℕ) (l : List α), k < l.length → (List.dropLast^[k] l).head? = l.head? := by
  intro k
  induction k with
  | zero => intro l _; rfl
  | succ m ih =>
    intro l h
    rw [Function.iterate_succ_apply, ih l.dropLast (by simp [List.length_dropLast]; omega)]
    match l, h with
    | [a], h => simp at h
    | a :: b :: rest, _ => rfl

theorem iterate_tail_eq_drop {α : Type} :
    ∀ (k : ℕ) (l : List α), List.tail^[k] l = l.drop k := by
  intro k
  induction k with
  | zero => intro l; rfl
  | succ m ih =>
    intro l
    rw [Function.iterate_succ_apply', ih, List.tail_drop]

/-- At parameter 0 the evaluator returns the first control point exactly. -/
theorem bezier_at_zero (vertices : List vertex) (h : vertices ≠ []) :
    bezier vertices 0 = (vertices.map fun v => v.position).head? := by
  rw [bezier_eq_roundsSpec, bezierRoundsSpec,
    show deCasteljauRound (0 : ℚ) = List.dropLast from funext deCasteljauRound_zero,
    head?_iterate_dropLast]
  simp only [List.length_map]
  have : 0 < vertices.length := List.length_pos.2 h
  omega

/-- At parameter 1 the evaluator returns the last control point exactly. -/
theorem bezier_at_one (vertices : List vertex) :
    bezier vertices 1 = (vertices.map fun v => v.position).getLast? := by
  rw [bezier_eq_roundsSpec, bezierRoundsSpec,
    show deCasteljauRound (1 : ℚ) = List.tail from funext deCasteljauRound_one,
    iterate_tail_eq_drop, List.head?_drop, List.getLast?_eq_getElem?]

/-- The evaluator returns a value (never reads out of bounds) whenever the
control-point list is non-empty. -/
theorem bezier_isSome (vertices : List vertex) (t : ℚ) (h : 0 < vertices.length) :
    (bezier vertices t).isSome = true := by
  rw [bezier_eq_roundsSpec, bezierRoundsSpec]
  have hlen := iterate_deCasteljauRound_length t ((vertices.map fun v => v.position).length - 1)
    (vertices.map fun v => v.position)
  refine List.head?_isSome.mpr (fun hnil => ?_)
  rw [hnil] at hlen
  simp at hlen
  omega

/-- On a 2-point list the evaluator is exactly the linear interpolation of
the endpoints. -/
theorem bezier_pair (p q : vertex) (t : ℚ) :
    bezier [p, q] t = some (lerpP t p.position q.position) := by
  rw [bezier_eq_roundsSpec]
  rfl

/-! Lemmas about the tessellation loop. -/

theorem hypot_nonneg (x y : ℚ) : 0 ≤ hypot x y :=
  Real.sqrt_nonneg _

/-- Arc-length recurrence between consecutive tessellated vertices: the later
vertex's cumulative length is the earlier one's plus the Euclidean distance
between their positions. -/
def distRec (a b : bezier_vertex) : Prop :=
  b.dist = hypot (a.position.x - b.position.x) (a.position.y - b.position.y) + a.dist

theorem splineLoop_length (pts : List vertex) (N : ℕ) :
    ∀ (l : List ℕ) (prev : Option bezier_vertex),
      (splineLoop pts N l prev).length = l.length
  | [], _ => rfl
  | i :: rest, prev => by
      rw [splineLoop]
      simpa using splineLoop_length pts N rest _

theorem splineLoop_map_position (pts : List vertex) (N : ℕ) :
    ∀ (l : List ℕ) (prev : Option bezier_vertex),
      (splineLoop pts N l prev).map (fun v => v.position) =
        l.map (fun i : ℕ => (bezier pts ((i : ℚ) / ((N - 1 : ℕ) : ℚ))).getD ⟨0, 0⟩)
  | [], _ => rfl
  | i :: rest, prev => by
      rw [splineLoop]
      simpa using splineLoop_map_position pts N rest _

theorem splineLoop_head_dist (pts : List vertex) (N : ℕ) (i : ℕ) (rest : List ℕ) :
    ((splineLoop pts N (i :: rest) none).map fun v => v.dist).head? = some 0 := by
  rw [splineLoop]
  simp [nextDist]

theorem splineLoop_chain (pts : List vertex) (N : ℕ) :
    ∀ (l : List ℕ) (prev : Option bezier_vertex),
      List.Chain' distRec (splineLoop pts N l prev) ∧
        ∀ w : bezier_vertex, prev = some w →
          ∀ z ∈ (splineLoop pts N l prev).head?, distRec w z
  | [], prev => by simp [splineLoop]
  | i :: rest, prev => by
      obtain ⟨ihChain, ihHead⟩ :=
        splineLoop_chain pts N rest
          (some ⟨(bezier pts ((i : ℚ) / ((N - 1 : ℕ) : ℚ))).getD ⟨0, 0⟩,
            (180, 255, 180, 255),
            nextDist prev ((bezier pts ((i : ℚ) / ((N - 1 : ℕ) : ℚ))).getD ⟨0, 0⟩)⟩)
      constructor
      · rw [splineLoop]
        exact List.chain'_cons'.mpr ⟨fun z hz => ihHead _ rfl z hz, ihChain⟩
      · intro w hw z hz
        rw [splineLoop] at hz
        simp only [List.head?_cons, Option.mem_def, Option.some.injEq] at hz
        subst hz
        subst hw
        rfl

theorem chain_dist_mono (l : List bezier_vertex) (h : List.Chain' distRec l) :
    List.Chain' (fun a b => a.dist ≤ b.dist) l := by
  refine List.Chain'.imp ?_ h
  intro a b hab
  rw [distRec] at hab
  rw [hab]
  have := hypot_nonneg (a.position.x - b.position.x) (a.position.y - b.position.y)
  linarith

theorem update_bezier_length (pts : List vertex) (q : ℕ) :
    (update_bezier pts q).length = pts.length * q := by
  rw [update_bezier, splineLoop_length, List.length_range]

theorem update_bezier_map_position (pts : List vertex) (q : ℕ) :
    (update_bezier pts q).map (fun v => v.position) =
      (List.range (pts.length * q)).map
        (fun i : ℕ => (bezier pts ((i : ℚ) / ((pts.length * q - 1 : ℕ) : ℚ))).getD ⟨0, 0⟩) := by
  rw [update_bezier, splineLoop_map_position]

/-! Claim theorems. -/

/-- C6: for every control-point list and quality whose product exceeds 1, the
rebuilt tessellation has exactly `control_point_count × quality` samples. -/
theorem C6_density (pts : List vertex) (q : ℕ) (h : 1 < pts.length * q) :
    (update_bezier pts q).length = pts.length * q :=
  update_bezier_length pts q

/-- Witness for C6 at the concrete 2-point list with quality 1. -/
theorem C6_density_witness :
    (update_bezier [⟨⟨0, 0⟩, (255, 255, 255, 255)⟩, ⟨⟨100, 0⟩, (255, 255, 255, 255)⟩] 1).length =
      ([⟨⟨0, 0⟩, (255, 255, 255, 255)⟩, ⟨⟨100, 0⟩, (255, 255, 255, 255)⟩] : List vertex).length * 1 :=
  C6_density _ 1 (by decide)

/-- C9: the evaluator's unguarded first-element read is unreachable: with an
empty control-point list the tessellation loop runs zero iterations
(`N = 0 × quality = 0`, empty output), the loop running at all forces a
non-empty list, and on every non-empty list the evaluator returns a value. -/
theorem C9_evaluator_guard :
    (∀ q : ℕ, update_bezier [] q = []) ∧
      (∀ (pts : List vertex) (t : ℚ), 0 < pts.length → (bezier pts t).isSome = true) ∧
      (∀ (pts : List vertex) (q : ℕ), 0 < pts.length * q → 0 < pts.length) := by
  refine ⟨fun q => ?_, fun pts t h => bezier_isSome pts t h, fun pts q h => ?_⟩
  · rw [update_bezier]
    simp [splineLoop]
  · cases pts with
    | nil => simp at h
    | cons v vs => simp

/-- Witness for C9 at a concrete one-point list. -/
theorem C9_evaluator_guard_witness :
    update_bezier [] 5 = [] ∧
      (bezier [⟨⟨1, 2⟩, (255, 255, 255, 255)⟩] 0).isSome = true ∧
      0 < ([⟨⟨1, 2⟩, (255, 255, 255, 255)⟩] : List vertex).length :=
  ⟨C9_evaluator_guard.1 5,
    C9_evaluator_guard.2.1 _ 0 (by decide),
    C9_evaluator_guard.2.2 _ 1 (by decide)⟩

/-- C10: rebuilding is a pure recomputation: it leaves the control-point list
and the quality unchanged, replaces the spline with a value recomputed from
the current control points and quality alone, and re-uploads both buffers. -/
theorem C10_rebuild_pure (s : AppState) :
    (updateBezierState s).bezier_pts = s.bezier_pts ∧
      (updateBezierState s).quality = s.quality ∧
      (updateBezierState s).bezier_spline = update_bezier s.bezier_pts s.quality ∧
      (updateBezierState s).vbo_pts = s.bezier_pts ∧
      (updateBezierState s).vbo_spline = update_bezier s.bezier_pts s.quality :=
  ⟨rfl, rfl, rfl, rfl, rfl⟩

/-- C4: in every rebuilt tessellation the first sample's arc length is 0,
consecutive vertices satisfy the exact recurrence `dist = previous dist +
Euclidean distance`, and arc lengths are non-decreasing. -/
theorem C4_arclength (pts : List vertex) (q : ℕ) :
    (((update_bezier pts q).map fun v => v.dist).head?).getD 0 = 0 ∧
      List.Chain' distRec (update_bezier pts q) ∧
      List.Chain' (fun a b => a.dist ≤ b.dist) (update_bezier pts q) := by
  refine ⟨?_, (splineLoop_chain pts _ _ none).1, chain_dist_mono _ (splineLoop_chain pts _ _ none).1⟩
  rw [update_bezier]
  cases hN : List.range (pts.length * q) with
  | nil => simp [splineLoop]
  | cons i rest =>
      rw [splineLoop_head_dist]
      rfl

theorem handleEvent_quality_ge (s : AppState) (e : Event) (h : 1 ≤ s.quality) :
    1 ≤ (handleEvent s e).quality := by
  cases e with
  | mouseLeft x y => simpa [handleEvent, updateBezierState] using h
  | mouseRight =>
      by_cases hc : s.bezier_pts = [] <;>
        simpa [handleEvent, hc, updateBezierState] using h
  | keyLeft =>
      by_cases hc : 1 < s.quality <;>
        simp [handleEvent, hc, updateBezierState] <;> omega
  | keyRight =>
      simp [handleEvent, updateBezierState]

theorem runEvents_quality_ge (es : List Event) :
    ∀ s : AppState, 1 ≤ s.quality → 1 ≤ (runEvents s es).quality := by
  induction es with
  | nil => intro s h; exact h
  | cons e rest ih =>
      intro s h
      exact ih (handleEvent s e) (handleEvent_quality_ge s e h)

/-- C7: the quality invariant.  From the initial state (quality 4) every event
sequence keeps quality at least 1; the decrease key decrements only when the
result stays at least 1 and is a state-preserving no-op otherwise (no
re-tessellation either); the increase key increments unconditionally; and any
number of repeated decrease presses never brings quality below 1. -/
theorem C7_quality :
    (∀ es : List Event, 1 ≤ (runEvents initState es).quality) ∧
      (∀ s : AppState, 1 < s.quality →
        (handleEvent s Event.keyLeft).quality = s.quality - 1 ∧
          1 ≤ (handleEvent s Event.keyLeft).quality) ∧
      (∀ s : AppState, s.quality ≤ 1 → handleEvent s Event.keyLeft = s) ∧
      (∀ s : AppState, (handleEvent s Event.keyRight).quality = s.quality + 1) ∧
      (∀ (s : AppState) (n : ℕ), 1 ≤ s.quality →
        1 ≤ ((fun st => handleEvent st Event.keyLeft)^[n] s).quality) := by
  refine ⟨fun es => runEvents_quality_ge es initState (by norm_num [initState]),
    fun s h => ?_, fun s h => ?_, fun s => ?_, fun s n => ?_⟩
  · constructor
    · simp [handleEvent, h, updateBezierState]
    · simp [handleEvent, h, updateBezierState]
      omega
  · simp [handleEvent, Nat.not_lt.mpr h]
  · simp [handleEvent, updateBezierState]
  · induction n generalizing s with
    | zero => intro h; exact h
    | succ m ih =>
        intro h
        rw [Function.iterate_succ_apply]
        exact ih _ (handleEvent_quality_ge s Event.keyLeft h)

/-- Witness for C7 at concrete states. -/
theorem C7_quality_witness :
    1 ≤ (runEvents initState [Event.keyLeft, Event.keyLeft]).quality ∧
      ((handleEvent initState Event.keyLeft).quality = initState.quality - 1 ∧
        1 ≤ (handleEvent initState Event.keyLeft).quality) ∧
      handleEvent { initState with quality := 1 } Event.keyLeft =
        { initState with quality := 1 } ∧
      (handleEvent initState Event.keyRight).quality = initState.quality + 1 ∧
      1 ≤ ((fun st => handleEvent st Event.keyLeft)^[9] initState).quality :=
  ⟨C7_quality.1 [Event.keyLeft, Event.keyLeft],
    C7_quality.2.1 initState (by norm_num [initState]),
    C7_quality.2.2.1 { initState with quality := 1 } (by norm_num [initState]),
    C7_quality.2.2.2.1 initState,
    C7_quality.2.2.2.2 initState 9 (by norm_num [initState])⟩

/-- C5: with at least 2 control points and quality at least 1, the first
tessellated sample sits exactly at the first control point and the last
sample exactly at the last control point. -/
theorem C5_endpoints (pts : List vertex) (q : ℕ) (h2 : 2 ≤ pts.length) (hq : 1 ≤ q) :
    ((update_bezier pts q).map fun v => v.position).head? =
        (pts.map fun v => v.position).head? ∧
      ((update_bezier pts q).map fun v => v.position).getLast? =
        (pts.map fun v => v.position).getLast? := by
  have hN : 2 ≤ pts.length * q := by
    calc 2 = 2 * 1 := by norm_num
    _ ≤ pts.length * q := Nat.mul_le_mul h2 hq
  have hne : pts ≠ [] := by
    intro h
    rw [h] at h2
    simp at h2
  rw [update_bezier_map_position]
  constructor
  · rw [List.head?_map, List.head?_eq_getElem?, List.getElem?_range (by omega)]
    obtain ⟨p0, hp0⟩ := Option.isSome_iff_exists.mp
      (List.head?_isSome.mpr (show (pts.map fun v => v.position) ≠ [] by simpa using hne))
    rw [Option.map_some', Nat.cast_zero, zero_div, bezier_at_zero pts hne, hp0]
    rfl
  · rw [List.getLast?_map, List.getLast?_eq_getElem?, List.length_range,
      List.getElem?_range (by omega)]
    have hcast : ((pts.length * q - 1 : ℕ) : ℚ) ≠ 0 := by
      rw [Nat.cast_ne_zero]
      omega
    obtain ⟨pl, hpl⟩ := Option.isSome_iff_exists.mp
      (List.getLast?_isSome.mpr (show (pts.map fun v => v.position) ≠ [] by simpa using hne))
    rw [Option.map_some', div_self hcast, bezier_at_one pts, hpl]
    rfl

/-- Witness for C5 at the concrete 2-point list with quality 1. -/
theorem C5_endpoints_witness :
    ((update_bezier [⟨⟨0, 0⟩, (255, 255, 255, 255)⟩, ⟨⟨100, 0⟩, (255, 255, 255, 255)⟩] 1).map
          fun v => v.position).head? =
        (([⟨⟨0, 0⟩, (255, 255, 255, 255)⟩, ⟨⟨100, 0⟩, (255, 255, 255, 255)⟩] : List vertex).map
          fun v => v.position).head? ∧
      ((update_bezier [⟨⟨0, 0⟩, (255, 255, 255, 255)⟩, ⟨⟨100, 0⟩, (255, 255, 255, 255)⟩] 1).map
          fun v => v.position).getLast? =
        (([⟨⟨0, 0⟩, (255, 255, 255, 255)⟩, ⟨⟨100, 0⟩, (255, 255, 255, 255)⟩] : List vertex).map
          fun v => v.position).getLast? :=
  C5_endpoints _ 1 (by decide) (by decide)

/-- C3: the evaluator on a 2-point list is the linear interpolation of the
endpoints for every parameter, returning the first point at 0 and the last at
1; on a 1-point list it returns that point unchanged; and in general it
agrees with the spec's description as iterated de Casteljau rounds. -/
theorem C3_evaluator :
    (∀ (p q : vertex) (t : ℚ), bezier [p, q] t = some (lerpP t p.position q.position)) ∧
      (∀ p q : vertex, bezier [p, q] 0 = some p.position ∧ bezier [p, q] 1 = some q.position) ∧
      (∀ (p : vertex) (t : ℚ), bezier [p] t = some p.position) ∧
      (∀ (vertices : List vertex) (t : ℚ),
        bezier vertices t = bezierRoundsSpec (vertices.map fun v => v.position) t) := by
  refine ⟨bezier_pair, fun p q => ⟨?_, ?_⟩, fun p t => ?_, bezier_eq_roundsSpec⟩
  · rw [bezier_pair, lerpP_zero]
  · rw [bezier_pair, lerpP_one]
  · rw [bezier_eq_roundsSpec]
    rfl

/-- C1: evaluation of the code at the failing input.  With the single
control point `(0,0)` and quality 1 the rebuild is NOT empty: the loop runs
`N = 1 × 1 = 1` iteration and emits one sample at the control point with arc
length 0, contradicting the claim that fewer than 2 control points always
yield an empty tessellated sequence. -/
theorem C1_degenerate_eval :
    update_bezier [⟨⟨0, 0⟩, (255, 255, 255, 255)⟩] 1 =
        [⟨⟨0, 0⟩, (180, 255, 180, 255), 0⟩] ∧
      (update_bezier [⟨⟨0, 0⟩, (255, 255, 255, 255)⟩] 1).length = 1 := by
  constructor
  · rw [update_bezier]
    norm_num
    rw [show List.range 1 = [0] from rfl, splineLoop]
    simp [splineLoop, bezier, nextDist]
  · rw [update_bezier_length]
    rfl

/-- C2: evaluation of the code at the failing input for the `N ≤ 1` guard.
With one control point `(5,7)` and quality 1 we get `N = 1`, the parameter
formula divides by zero, yet the loop still runs once and emits a non-empty
sequence (one finite sample at the control point, arc length 0) instead of
the empty tessellation the claim requires. -/
theorem C2_no_guard_eval :
    update_bezier [⟨⟨5, 7⟩, (255, 255, 255, 255)⟩] 1 =
        [⟨⟨5, 7⟩, (180, 255, 180, 255), 0⟩] ∧
      (update_bezier [⟨⟨5, 7⟩, (255, 255, 255, 255)⟩] 1).length = 1 := by
  constructor
  · rw [update_bezier]
    norm_num
    rw [show List.range 1 = [0] from rfl, splineLoop]
    simp [splineLoop, bezier, nextDist]
  · rw [update_bezier_length]
    rfl

/-- C8: Scenario A.  Control points `(0,0)` and `(100,0)` with quality 1
tessellate to exactly two samples: `(0,0)` with arc length 0 and `(100,0)`
with arc length 100. -/
theorem C8_scenarioA :
    update_bezier [⟨⟨0, 0⟩, (255, 255, 255, 255)⟩, ⟨⟨100, 0⟩, (255, 255, 255, 255)⟩] 1 =
      [⟨⟨0, 0⟩, (180, 255, 180, 255), 0⟩, ⟨⟨100, 0⟩, (180, 255, 180, 255), 100⟩] := by
  rw [update_bezier]
  norm_num
  rw [show List.range 2 = [0, 1] from rfl]
  rw [splineLoop, splineLoop, splineLoop]
  simp only [Nat.cast_zero, Nat.cast_one, Nat.cast_ofNat]
  norm_num [bezier, innerStep, lerpP, nextDist, hypot, List.range_succ]
  rw [show ((10000 : ℝ)) = 100 ^ 2 by norm_num]
  rw [Real.sqrt_sq (by norm_num : (0:ℝ) ≤ 100)]

end BezierApp
